import Mathlib

/-!
Verification development for the robust-smc repository.

The definitions below are shallow embeddings of the Python sources:

* `Data.*`      embeds `src/robust_smc/data.py` (simulators and terrain map);
* `Nlmhe.*`     embeds `src/robust_smc/nonlinearmhe.py` (the moving-horizon
  estimator's surrounding filter loop; the UKF of the external `filterpy`
  package and the external CasADi NLP solver are abstracted as opaque
  function parameters, since they are third-party collaborators);
* `Sampler.*`   models, from the specification text, the particle-sampler
  module `robust_smc.sampler`, whose source is not part of this tree (only
  its caller `src/experiments/tan_impulsive_noise_sweep_with_APF.py` is).

NumPy's seeded generator `np.random.RandomState(seed)` is embedded as an
explicit deterministic stream of draws: a function from the draw index to
the drawn value, threaded through the computation with a position counter.
Machine floats are modelled as real numbers; `NaN` entries of an
observation vector are modelled as `Option ℝ` with `none` for `NaN`.
-/

open Real Filter

namespace Data

/-- Re-implementation of MATLAB's `peaks` function, from `data.py`
(`peaks(x, y)`), translated pointwise over real inputs. -/
noncomputable def peaks (x y : ℝ) : ℝ :=
  let first_term := 3 * ((1 - x) ^ 2) * Real.exp (-(x ^ 2) - ((y + 1) ^ 2))
  let second_term := -10 * ((x / 5) - x ^ 3 - y ^ 5) * Real.exp (-(x ^ 2 + y ^ 2))
  let third_term := -(1 / 3) * Real.exp (-((x + 1) ^ 2) + y ^ 2)
  200 * (first_term + second_term + third_term)

/-- The amplitude array `a = [300, 80, 60, 40, 20, 10]` shared by both DEM
implementations, as a function of the frequency index. -/
def aCoef : ℕ → ℝ := fun i => [300, 80, 60, 40, 20, 10].getD i 0

/-- The frequency array `omega = [5, 10, 20, 30, 80, 150]`. -/
def omegaCoef : ℕ → ℝ := fun i => [5, 10, 20, 30, 80, 150].getD i 0

/-- The frequency array `omega_bar = [4, 10, 20, 40, 90, 150]`. -/
def omegaBarCoef : ℕ → ℝ := fun i => [4, 10, 20, 40, 90, 150].getD i 0

/-- The scaling constant `q = 3 / (2.96 * 1e4)` used by both DEM versions. -/
noncomputable def qConst : ℝ := 3 / (2.96 * 10 ^ 4)

/-- The synthetic digital elevation map of `data.py` (`dem(x, y)`): note that
its Fourier part is `a * sin(omega * q * x) * cos(omega_bar * q * x)` — the
cosine factor is evaluated at the `x` coordinate. -/
noncomputable def dem (x y : ℝ) : ℝ :=
  peaks (qConst * x) (qConst * y) +
    ∑ i in Finset.range 6,
      aCoef i * Real.sin (omegaCoef i * (qConst * x)) *
        Real.cos (omegaBarCoef i * (qConst * x))

end Data

namespace Nlmhe

/-- The digital elevation map of `nonlinearmhe.py` (`dem(x, y,
num_frequencies)`), scalar branch: the Fourier part is
`np.sum(a * sin(omega * q * x) * cos(omega_bar * q * y))` — the cosine
factor is evaluated at the `y` coordinate, truncated to the first
`num_frequencies` entries of the coefficient arrays. -/
noncomputable def dem (x y : ℝ) (num_frequencies : ℕ) : ℝ :=
  Data.peaks (Data.qConst * x) (Data.qConst * y) +
    ∑ i in Finset.range num_frequencies,
      Data.aCoef i * Real.sin (Data.omegaCoef i * (Data.qConst * x)) *
        Real.cos (Data.omegaBarCoef i * (Data.qConst * y))

/-- The array branch of `nonlinearmhe.py`'s `dem`: the explicit Python loop
`for i in range(num_frequencies): peak += a[i] * sin(...) * cos(...)`
accumulating the same Fourier terms one at a time, left to right. -/
noncomputable def demLoop (x y : ℝ) : ℕ → ℝ
  | 0 => Data.peaks (Data.qConst * x) (Data.qConst * y)
  | n + 1 =>
      demLoop x y n +
        Data.aCoef n * Real.sin (Data.omegaCoef n * (Data.qConst * x)) *
          Real.cos (Data.omegaBarCoef n * (Data.qConst * y))

end Nlmhe

/-- Explicit state of a seeded NumPy generator: the deterministic stream of
draws it will produce, plus the position of the next draw.  Every call that
consumes randomness advances `pos`, mirroring the mutation of `self.rng`. -/
structure RngState where
  stream : ℕ → ℝ
  pos : ℕ

/-- Draw a vector of `n` consecutive values (one `rng.randn(n, 1)` call). -/
def drawN (n : ℕ) (r : RngState) : (Fin n → ℝ) × RngState :=
  (fun i => r.stream (r.pos + i), ⟨r.stream, r.pos + n⟩)

/-- Draw a single value (one `rng.rand()` or scalar `randn` call). -/
def draw1 (r : RngState) : ℝ × RngState :=
  (r.stream r.pos, ⟨r.stream, r.pos + 1⟩)

namespace Data

/-- Constructor parameters of `TANSimulator.__init__` after the default
arguments are resolved: `simulationSteps = int(final_time / time_step)` is
carried directly as a natural number. -/
structure TANParams where
  simulationSteps : ℕ
  timeStep : ℝ
  observationStd : ℝ
  X0 : Fin 6 → ℝ
  transitionMatrix : Matrix (Fin 6) (Fin 6) ℝ
  processStd : Fin 6 → ℝ
  seed : ℕ

/-- A simulated TAN system: latent trajectory `self.X` and observations
`self.Y` as produced by `TANSimulator._simulate_system`. -/
structure TANSim where
  X : List (Fin 6 → ℝ)
  Y : List ℝ

/-- The latent state at time `t` of `TANSimulator._simulate_system`:
`X[t+1] = transition_matrix @ X[t] + process_std * randn(6, 1)`, with the
six standard-normal draws of step `t` taken at stream indices `6 t + i`. -/
noncomputable def tanStateAt (p : TANParams) (g : ℕ → ℝ) : ℕ → (Fin 6 → ℝ)
  | 0 => p.X0
  | t + 1 =>
      p.transitionMatrix.mulVec (tanStateAt p g t) +
        fun i => p.processStd i * g (6 * t + (i : ℕ))

/-- `TANSimulator.observation_model`: `m = z - DEM(x, y)` per state row. -/
noncomputable def tanObservationModel (x : Fin 6 → ℝ) : ℝ :=
  x 2 - dem (x 0) (x 1)

/-- Construct a `TANSimulator`: the constructor seeds `self.rng =
np.random.RandomState(self.seed)` and immediately calls
`_simulate_system`, which produces `X` (rows `0 .. simulation_steps`) and
`Y = observation_model(X) + observation_std * randn(*Y.shape)`.  The
generator is embedded as the family `gauss : seed ↦ index ↦ draw`; the
process-noise draws of step `t` sit at indices `6 t + i` and the
observation-noise draw of row `t` at index `6 * simulationSteps + t`. -/
noncomputable def mkTANSimulator (gauss : ℕ → ℕ → ℝ) (p : TANParams) : TANSim :=
  let g := gauss p.seed
  let X := (List.range (p.simulationSteps + 1)).map (tanStateAt p g)
  let Y := (List.range (p.simulationSteps + 1)).map fun t =>
    tanObservationModel (tanStateAt p g t) +
      p.observationStd * g (6 * p.simulationSteps + t)
  ⟨X, Y⟩

/-- Modelled from the spec: `TANSimulator` has no `renoise` method in
`src/robust_smc/data.py`, yet `experiment_step` in
`tan_impulsive_noise_sweep_with_APF.py` calls `simulator.renoise()`.  The
spec describes the missing operation as re-invokable re-noising
"producing a new observation sequence with the same underlying latent
trajectory": a fresh noisy realization `observation_model(X) + noise` over
the unchanged stored `X`. -/
noncomputable def tanRenoise (stream : ℕ → ℝ) (s : TANSim) : List ℝ :=
  (List.zip s.X (List.range s.X.length)).map fun xi =>
    tanObservationModel xi.1 + stream xi.2

/-- The per-row noise of `ExplosiveTANSimulator.noise_model`: row `t` of
the noise matrix is `observation_std * standard_t(df=0.5)` when the
uniform draw satisfies `u <= 0.05`, and `observation_std * randn` when
`u > 0.05`; the nominal Gaussian draw is not used on contaminated rows.
`g` is the row of `randn` draws and `tdraw` the row of Student-t draws. -/
noncomputable def explosiveNoiseRow (k : ℕ) (observationStd u : ℝ)
    (g tdraw : Fin k → ℝ) : Fin k → ℝ :=
  fun j => observationStd * (if u ≤ 0.05 then tdraw j else g j)

/-- `ExplosiveTANSimulator`: it inherits `__init__`/`_simulate_system` from
`TANSimulator` and overrides only `noise_model`, which draws one uniform
per observation row and fills the row with Student-t noise when
`u <= 0.05` and with Gaussian noise otherwise (see `explosiveNoiseRow`;
here the observation dimension is 1).  The uniform, Gaussian and Student-t
draws of row `t` are taken from the seeded stream at the pairwise-disjoint
indices `6·steps + t`, `6·steps + (steps+1) + t` and
`6·steps + 2·(steps+1) + t`. -/
noncomputable def mkExplosiveTANSimulator (gauss : ℕ → ℕ → ℝ) (p : TANParams) :
    TANSim :=
  let g := gauss p.seed
  let T := p.simulationSteps
  let X := (List.range (T + 1)).map (tanStateAt p g)
  let Y := (List.range (T + 1)).map fun t =>
    tanObservationModel (tanStateAt p g t) +
      explosiveNoiseRow 1 p.observationStd (g (6 * T + t))
        (fun _ => g (6 * T + (T + 1) + t)) (fun _ => g (6 * T + 2 * (T + 1) + t)) 0
  ⟨X, Y⟩

/-- Constructor parameters of `ConstantVelocityModel.__init__`. -/
structure CVParams where
  simulationSteps : ℕ
  timeStep : ℝ
  observationCov : Matrix (Fin 2) (Fin 2) ℝ
  explosionScale : ℝ
  contaminationProbability : ℝ
  seed : ℕ

/-- `_build_system`: transition matrix `eye(4)` with
`transition_matrix[0, 2] = transition_matrix[1, 3] = time_step`. -/
def cvTransitionMatrix (timeStep : ℝ) : Matrix (Fin 4) (Fin 4) ℝ :=
  fun i j => if i = j then 1 else if i = 0 ∧ j = 2 then timeStep
    else if i = 1 ∧ j = 3 then timeStep else 0

/-- `_build_system`: observation matrix `eye(2, 4)`. -/
def cvObservationMatrix : Matrix (Fin 2) (Fin 4) ℝ :=
  fun i j => if (i : ℕ) = (j : ℕ) then 1 else 0

/-- `_build_system`: block process covariance
`[[h³/3 · I₂, h²/2 · I₂], [h²/2 · I₂, h · I₂]]` for `h = time_step`. -/
noncomputable def cvProcessCov (h : ℝ) : Matrix (Fin 4) (Fin 4) ℝ :=
  fun i j =>
    if (i : ℕ) % 2 ≠ (j : ℕ) % 2 then 0
    else if (i : ℕ) = (j : ℕ) then (if (i : ℕ) < 2 then h ^ 3 / 3 else h)
    else if (i : ℕ) % 2 = (j : ℕ) % 2 ∧ (i : ℕ) ≠ (j : ℕ) ∧
        ((i : ℕ) + 2 = (j : ℕ) ∨ (j : ℕ) + 2 = (i : ℕ)) then h ^ 2 / 2
    else 0

/-- `numpy.linalg.cholesky` on a 2×2 input: the LAPACK lower-Cholesky
recursion on the lower triangle, raising (`none`) exactly when a pivot is
not strictly positive (the matrix is not positive definite). -/
noncomputable def chol2 (m : Matrix (Fin 2) (Fin 2) ℝ) :
    Option (Matrix (Fin 2) (Fin 2) ℝ) :=
  if m 0 0 ≤ 0 then none
  else
    let l00 := Real.sqrt (m 0 0)
    let l10 := m 1 0 / l00
    if m 1 1 - l10 ^ 2 ≤ 0 then none
    else some (Matrix.of ![![l00, 0], ![l10, Real.sqrt (m 1 1 - l10 ^ 2)]])

/-- `numpy.linalg.cholesky` on a 4×4 input: the LAPACK lower-Cholesky
recursion on the lower triangle, raising (`none`) exactly when one of the
four pivots is not strictly positive. -/
noncomputable def chol4 (m : Matrix (Fin 4) (Fin 4) ℝ) :
    Option (Matrix (Fin 4) (Fin 4) ℝ) :=
  if m 0 0 ≤ 0 then none
  else
    let l00 := Real.sqrt (m 0 0)
    let l10 := m 1 0 / l00
    let l20 := m 2 0 / l00
    let l30 := m 3 0 / l00
    if m 1 1 - l10 ^ 2 ≤ 0 then none
    else
      let l11 := Real.sqrt (m 1 1 - l10 ^ 2)
      let l21 := (m 2 1 - l20 * l10) / l11
      let l31 := (m 3 1 - l30 * l10) / l11
      if m 2 2 - l20 ^ 2 - l21 ^ 2 ≤ 0 then none
      else
        let l22 := Real.sqrt (m 2 2 - l20 ^ 2 - l21 ^ 2)
        let l32 := (m 3 2 - l30 * l20 - l31 * l21) / l22
        if m 3 3 - l30 ^ 2 - l31 ^ 2 - l32 ^ 2 ≤ 0 then none
        else
          some (Matrix.of
            ![![l00, 0, 0, 0], ![l10, l11, 0, 0], ![l20, l21, l22, 0],
              ![l30, l31, l32, Real.sqrt (m 3 3 - l30 ^ 2 - l31 ^ 2 - l32 ^ 2)]])

/-- Success predicate of `chol2`, stated as the positivity of its two
pivots; `chol2 m` raises exactly when `¬ chol2Pd m`. -/
noncomputable def chol2Pd (m : Matrix (Fin 2) (Fin 2) ℝ) : Prop :=
  0 < m 0 0 ∧ 0 < m 1 1 - (m 1 0 / Real.sqrt (m 0 0)) ^ 2

/-- One observation of `ConstantVelocityModel._simulate_system` (also the
loop body of `renoise`): `Y_new = observation_matrix @ X + R @ randn(2, 1)`
followed by `if u < contamination_probability: Y_new += explosion_scale *
randn(2, 1)`; the extra explosion draw is only consumed on contamination. -/
noncomputable def cvObservationStep (H : Matrix (Fin 2) (Fin 4) ℝ)
    (R : Matrix (Fin 2) (Fin 2) ℝ) (scale pc : ℝ) (x : Fin 4 → ℝ)
    (r : RngState) : (Fin 2 → ℝ) × RngState :=
  let g2 := drawN 2 r
  let yNom := H.mulVec x + R.mulVec g2.1
  let u := draw1 g2.2
  if u.1 < pc then
    let e := drawN 2 u.2
    (yNom + scale • e.1, e.2)
  else (yNom, u.2)

/-- The simulation loop of `_simulate_system`
(`for _ in range(self.simulation_steps - 1)`): from the previous state,
`X_new = transition_matrix @ X[-1] + L @ randn(4, 1)` followed by one
observation step; returns the appended states, observations, and the
final rng state. -/
noncomputable def cvLoop (A : Matrix (Fin 4) (Fin 4) ℝ)
    (H : Matrix (Fin 2) (Fin 4) ℝ) (L : Matrix (Fin 4) (Fin 4) ℝ)
    (R : Matrix (Fin 2) (Fin 2) ℝ) (scale pc : ℝ) :
    ℕ → (Fin 4 → ℝ) → RngState →
      List (Fin 4 → ℝ) × List (Fin 2 → ℝ) × RngState
  | 0, _, r => ([], [], r)
  | n + 1, xPrev, r =>
      let g4 := drawN 4 r
      let xNew := A.mulVec xPrev + L.mulVec g4.1
      let y := cvObservationStep H R scale pc xNew g4.2
      let rest := cvLoop A H L R scale pc n xNew y.2
      (xNew :: rest.1, y.1 :: rest.2.1, rest.2.2)

/-- A constructed `ConstantVelocityModel` instance: the configuration
recorded by `__init__`/`_build_system`, the simulated `self.X` and
`self.Y`, and the generator state left behind by the constructor. -/
structure CVModel where
  transitionMatrix : Matrix (Fin 4) (Fin 4) ℝ
  observationMatrix : Matrix (Fin 2) (Fin 4) ℝ
  processCov : Matrix (Fin 4) (Fin 4) ℝ
  observationCov : Matrix (Fin 2) (Fin 2) ℝ
  explosionScale : ℝ
  contaminationProbability : ℝ
  X : List (Fin 4 → ℝ)
  Y : List (Fin 2 → ℝ)
  rng : RngState

/-- `ConstantVelocityModel.__init__`: seeds the generator, runs
`_build_system` (which draws `initial_state = [140,140,50,0] * randn(4,1)`)
and then `_simulate_system`.  The latter starts with the three Cholesky
factorizations `L = cholesky(process_cov)`, `R = cholesky(observation_cov)`
and `cholesky(initial_cov)` (`initial_cov = eye(4)`); any failure raises
`LinAlgError` out of the constructor, modelled as `none`, so no `renoise`
call can ever be made on such a configuration. -/
noncomputable def mkConstantVelocityModel (gauss : ℕ → ℕ → ℝ) (p : CVParams) :
    Option CVModel :=
  let A := cvTransitionMatrix p.timeStep
  let H := cvObservationMatrix
  let Q := cvProcessCov p.timeStep
  let r0 : RngState := ⟨gauss p.seed, 0⟩
  let i4 := drawN 4 r0
  let initialState : Fin 4 → ℝ := fun i => (![140, 140, 50, 0] i) * i4.1 i
  match chol4 Q with
  | none => none
  | some L =>
    match chol2 p.observationCov with
    | none => none
    | some R =>
      match chol4 1 with
      | none => none
      | some L0 =>
        let g4 := drawN 4 i4.2
        let x0 := initialState + L0.mulVec g4.1
        let g2 := drawN 2 g4.2
        let y0 := H.mulVec x0 + R.mulVec g2.1
        let rest := cvLoop A H L R p.explosionScale p.contaminationProbability
          (p.simulationSteps - 1) x0 g2.2
        some ⟨A, H, Q, p.observationCov, p.explosionScale,
          p.contaminationProbability, x0 :: rest.1, y0 :: rest.2.1, rest.2.2⟩

/-- The loop body of `ConstantVelocityModel.renoise` over the rows of the
stored `self.X`: each row is re-observed by one observation step (same
code as in `_simulate_system`, including the contamination branch). -/
noncomputable def cvRenoiseLoop (H : Matrix (Fin 2) (Fin 4) ℝ)
    (R : Matrix (Fin 2) (Fin 2) ℝ) (scale pc : ℝ) :
    List (Fin 4 → ℝ) → RngState → List (Fin 2 → ℝ) × RngState
  | [], r => ([], r)
  | x :: xs, r =>
      let y := cvObservationStep H R scale pc x r
      let rest := cvRenoiseLoop H R scale pc xs y.2
      (y.1 :: rest.1, rest.2)

/-- `ConstantVelocityModel.renoise`: re-runs `R = cholesky(observation_cov)`
(raising on failure), then produces one fresh observation per row of the
stored latent trajectory `self.X`; the trajectory itself is only read,
never written — the function returns a new observation sequence and the
advanced generator, and every other field of the model is untouched. -/
noncomputable def CVModel.renoise (m : CVModel) (r : RngState) :
    Option (List (Fin 2 → ℝ) × RngState) :=
  match chol2 m.observationCov with
  | none => none
  | some R =>
      some (cvRenoiseLoop m.observationMatrix R m.explosionScale
        m.contaminationProbability m.X r)

end Data

namespace Nlmhe

/-- An observation vector whose entries may be `NaN`: `none` models a
`NaN` float, `some v` a regular value `v`. -/
def Obs (d : ℕ) : Type := Fin d → Option ℝ

/-- `np.isnan(y).any()`: `true` iff some component of `y` is `NaN`. -/
def hasNaN {d : ℕ} (y : Obs d) : Bool :=
  (List.ofFn y).any Option.isNone

/-- An all-zero observation row (`np.zeros`), used to initialise `y_seq`. -/
def zeroObs (d : ℕ) : Obs d := fun _ => some 0

/-- The configuration recorded by `NonlinearMhe.__init__` that
`one_step_prediction` can see: the transition matrix, the transition
covariance, and the remaining instance fields (which the method does not
read).  Means are `x_dim × 1` column vectors, as in the source. -/
structure NonlinearMhe (n d : ℕ) where
  transition_matrix : Matrix (Fin n) (Fin n) ℝ
  transition_cov : Matrix (Fin n) (Fin n) ℝ
  observation_cov : ℝ
  m_0 : Matrix (Fin n) (Fin 1) ℝ
  P_0 : Matrix (Fin n) (Fin n) ℝ
  slide_window : ℕ

/-- `NonlinearMhe.one_step_prediction`:
`m_bar = transition_matrix @ filter_mean`,
`P_bar = transition_matrix @ filter_cov @ transition_matrix.T +
transition_cov`.  A pure function of its inputs: it writes neither its
arguments nor the instance. -/
noncomputable def NonlinearMhe.one_step_prediction {n d : ℕ}
    (self : NonlinearMhe n d) (filter_mean : Matrix (Fin n) (Fin 1) ℝ)
    (filter_cov : Matrix (Fin n) (Fin n) ℝ) :
    Matrix (Fin n) (Fin 1) ℝ × Matrix (Fin n) (Fin n) ℝ :=
  (self.transition_matrix * filter_mean,
    self.transition_matrix * filter_cov * self.transition_matrix.transpose +
      self.transition_cov)

/-- The state evolution of the `filterpy` UKF inside `NonlinearMhe.filter`:
`ukf.predict()` always runs, and `ukf.update(y)` runs exactly when
`not np.isnan(y).any()`.  The external UKF is abstracted by the opaque
functions `pred` (its `predict`) and `upd` (its `update`) on the pair
`(ukf.x, ukf.P)`. -/
def ukfStep {σ : Type} {d : ℕ} (pred : σ → σ) (upd : σ → Obs d → σ)
    (s : σ) (y : Obs d) : σ :=
  let sb := pred s
  if hasNaN y then sb else upd sb y

/-- The loop state of `NonlinearMhe.filter`: the UKF state, the growing
`filter_means` and `filter_covs` lists (which start with the prior), the
sliding observation window `y_seq`, and the loop index `t`. -/
structure MheLoopState (V M : Type) (d : ℕ) where
  ukf : V × M
  means : List V
  covs : List M
  yseq : List (Obs d)
  t : ℕ

/-- One iteration of the `for t in range(self.data.shape[0])` loop of
`NonlinearMhe.filter`: predict, update unless the observation has a `NaN`,
append `ukf.P` to `filter_covs`; then for `t < slide_window` place `y` at
`y_seq[t]` and append `ukf.x` to `filter_means`, and otherwise shift the
window, run the CasADi moving-horizon solve (the external solver is the
opaque `mhe`, fed `filter_means[t - slide_window + 1]`,
`filter_covs[t - slide_window + 1]` and the window) and append its
solution. -/
def mheStep {V M : Type} {d : ℕ} (pred : V × M → V × M)
    (upd : V × M → Obs d → V × M) (mhe : V → M → List (Obs d) → V)
    (w : ℕ) (st : MheLoopState V M d) (y : Obs d) : MheLoopState V M d :=
  let s2 := ukfStep pred upd st.ukf y
  let covs := st.covs ++ [s2.2]
  if st.t < w then
    ⟨s2, st.means ++ [s2.1], covs, st.yseq.set st.t y, st.t + 1⟩
  else
    let yseq := st.yseq.tail ++ [y]
    let mb := mhe (st.means.getD (st.t - w + 1) s2.1)
      (covs.getD (st.t - w + 1) s2.2) yseq
    ⟨s2, st.means ++ [mb], covs, yseq, st.t + 1⟩

/-- The initial loop state of `NonlinearMhe.filter`: `ukf.x = m_0`,
`ukf.P = P_0`, `filter_means = [m_0]`, `filter_covs = [P_0]`,
`y_seq = np.zeros((slide_window, y_dim))`, `t = 0`. -/
def mheInit {V M : Type} (d w : ℕ) (m0 : V) (P0 : M) : MheLoopState V M d :=
  ⟨(m0, P0), [m0], [P0], List.replicate w (zeroObs d), 0⟩

/-- `NonlinearMhe.filter`: fold the loop body over the observation rows,
then drop the prior from the front of both accumulators
(`self.filter_means = self.filter_means[1:]`, same for the covariances). -/
def mheFilter {V M : Type} {d : ℕ} (pred : V × M → V × M)
    (upd : V × M → Obs d → V × M) (mhe : V → M → List (Obs d) → V)
    (w : ℕ) (m0 : V) (P0 : M) (data : List (Obs d)) : List V × List M :=
  let fin := data.foldl (mheStep pred upd mhe w) (mheInit d w m0 P0)
  (fin.means.drop 1, fin.covs.drop 1)

end Nlmhe

namespace Sampler

/-- Modelled from the spec: the module `robust_smc.sampler` (the
`LinearGaussianBPF` / `RobustifiedLinearGaussianBPF` / APF family used by
`tan_impulsive_noise_sweep_with_APF.py`) is not part of this source tree.
Per the spec, the vanilla weight of a particle is the Gaussian
log-likelihood of the residual `r` (observation minus predicted
observation) under observation variance `s2`; this is its log-density. -/
noncomputable def gaussLogDensity (r s2 : ℝ) : ℝ :=
  -(Real.log (2 * Real.pi * s2)) / 2 - r ^ 2 / (2 * s2)

/-- Modelled from the spec: the vanilla Gaussian weight itself,
`exp (gaussLogDensity r s2)`. -/
noncomputable def gaussWeight (r s2 : ℝ) : ℝ :=
  Real.exp (gaussLogDensity r s2)

/-- Modelled from the spec: the robustified beta-divergence log-weight.
The spec prescribes "a Gaussian density value scaled and exponentiated by
a factor depending on β", normalized by particle-independent β-dependent
constants that may be dropped.  The standard beta-divergence
pseudo-likelihood is `(1/β) p(y)^β` plus particle-independent terms; with
the particle-independent constant `-1/β` retained so that the β → 0 limit
exists, the log-weight is `(p(y)^β - 1)/β = (exp (β · log p(y)) - 1)/β`,
and β = 0 is defined to be the vanilla Gaussian case (the spec's exact
limiting case). -/
noncomputable def robustLogWeight (β r s2 : ℝ) : ℝ :=
  if β = 0 then gaussLogDensity r s2
  else (Real.exp (β * gaussLogDensity r s2) - 1) / β

/-- Modelled from the spec: the reweighting step of a particle filter's
`sample()` pass.  Given the per-particle log-weights, subtract the
maximum log-weight (log-sum-exp stabilization), exponentiate, and
normalize so the weights sum to 1. -/
noncomputable def normalizeLogWeights (l : List ℝ) : List ℝ :=
  let m := l.foldl max (l.headD 0)
  let raw := l.map fun a => Real.exp (a - m)
  raw.map fun w => w / raw.sum

end Sampler

/-! ## Helper lemmas -/

theorem list_sum_map_div (l : List ℝ) (c : ℝ) :
    (l.map fun x => x / c).sum = l.sum / c := by
  induction l with
  | nil => simp
  | cons a t ih => simp [ih, add_div]

theorem exp_list_sum_pos (l : List ℝ) (hne : l ≠ []) :
    0 < (l.map fun a => Real.exp a).sum := by
  refine List.sum_pos _ ?_ (by simpa using hne)
  intro x hx
  rcases List.mem_map.mp hx with ⟨a, _, rfl⟩
  exact Real.exp_pos a

theorem cvLoop_lengths (A : Matrix (Fin 4) (Fin 4) ℝ)
    (H : Matrix (Fin 2) (Fin 4) ℝ) (L : Matrix (Fin 4) (Fin 4) ℝ)
    (R : Matrix (Fin 2) (Fin 2) ℝ) (scale pc : ℝ) :
    ∀ (n : ℕ) (x : Fin 4 → ℝ) (r : RngState),
      (Data.cvLoop A H L R scale pc n x r).1.length = n ∧
      (Data.cvLoop A H L R scale pc n x r).2.1.length = n := by
  intro n
  induction n with
  | zero => intro x r; simp [Data.cvLoop]
  | succ k ih =>
      intro x r
      simp only [Data.cvLoop, List.length_cons]
      constructor
      · rw [(ih _ _).1]
      · rw [(ih _ _).2]

theorem cvRenoiseLoop_length (H : Matrix (Fin 2) (Fin 4) ℝ)
    (R : Matrix (Fin 2) (Fin 2) ℝ) (scale pc : ℝ) :
    ∀ (xs : List (Fin 4 → ℝ)) (r : RngState),
      (Data.cvRenoiseLoop H R scale pc xs r).1.length = xs.length := by
  intro xs
  induction xs with
  | nil => intro r; simp [Data.cvRenoiseLoop]
  | cons x t ih =>
      intro r
      simp only [Data.cvRenoiseLoop, List.length_cons]
      rw [ih]

theorem chol2_none_of_not_pd (m : Matrix (Fin 2) (Fin 2) ℝ)
    (h : ¬ Data.chol2Pd m) : Data.chol2 m = none := by
  unfold Data.chol2
  by_cases h0 : m 0 0 ≤ 0
  · rw [if_pos h0]
  · rw [if_neg h0]
    have h0' : 0 < m 0 0 := lt_of_not_le h0
    have h1 : m 1 1 - (m 1 0 / Real.sqrt (m 0 0)) ^ 2 ≤ 0 := by
      by_contra hcon
      exact h ⟨h0', lt_of_not_le hcon⟩
    simp only [if_pos h1]

theorem mheStep_ukf {V M : Type} {d : ℕ} (pred : V × M → V × M)
    (upd : V × M → Nlmhe.Obs d → V × M) (mhe : V → M → List (Nlmhe.Obs d) → V)
    (w : ℕ) (st : Nlmhe.MheLoopState V M d) (y : Nlmhe.Obs d) :
    (Nlmhe.mheStep pred upd mhe w st y).ukf = Nlmhe.ukfStep pred upd st.ukf y := by
  unfold Nlmhe.mheStep
  dsimp only
  split <;> rfl

theorem mheFold_ukf {V M : Type} {d : ℕ} (pred : V × M → V × M)
    (upd : V × M → Nlmhe.Obs d → V × M) (mhe : V → M → List (Nlmhe.Obs d) → V)
    (w : ℕ) (st : Nlmhe.MheLoopState V M d) (data : List (Nlmhe.Obs d)) :
    (data.foldl (Nlmhe.mheStep pred upd mhe w) st).ukf =
      data.foldl (Nlmhe.ukfStep pred upd) st.ukf := by
  induction data generalizing st with
  | nil => rfl
  | cons y ys ih =>
      rw [List.foldl_cons, List.foldl_cons, ih, mheStep_ukf]

theorem foldl_take_succ {α β : Type} (f : β → α → β) (l : List α) :
    ∀ (t : ℕ) (s : β) (ht : t < l.length),
      (l.take (t + 1)).foldl f s = f ((l.take t).foldl f s) (l.get ⟨t, ht⟩) := by
  induction l with
  | nil => intro t s ht; exact absurd ht (by simp)
  | cons a as ih =>
      intro t s ht
      cases t with
      | zero => rfl
      | succ t' =>
          simp only [List.take_succ_cons, List.foldl_cons, List.get_cons_succ]
          exact ih t' (f s a) (by simpa using ht)

theorem mheFold_means_append {V M : Type} {d : ℕ} (pred : V × M → V × M)
    (upd : V × M → Nlmhe.Obs d → V × M) (mhe : V → M → List (Nlmhe.Obs d) → V)
    (w : ℕ) (data : List (Nlmhe.Obs d)) :
    ∀ st : Nlmhe.MheLoopState V M d,
      ∃ tl : List V, (data.foldl (Nlmhe.mheStep pred upd mhe w) st).means =
        st.means ++ tl ∧ tl.length = data.length := by
  induction data with
  | nil => intro st; exact ⟨[], by simp⟩
  | cons y ys ih =>
      intro st
      rw [List.foldl_cons]
      obtain ⟨tl, htl, hlen⟩ := ih (Nlmhe.mheStep pred upd mhe w st y)
      have hstep : ∃ x : V, (Nlmhe.mheStep pred upd mhe w st y).means =
          st.means ++ [x] := by
        unfold Nlmhe.mheStep
        dsimp only
        split
        · exact ⟨_, rfl⟩
        · exact ⟨_, rfl⟩
      obtain ⟨x, hx⟩ := hstep
      refine ⟨x :: tl, ?_, by simp [hlen]⟩
      rw [htl, hx, List.append_assoc]
      rfl

theorem mheFold_covs_append {V M : Type} {d : ℕ} (pred : V × M → V × M)
    (upd : V × M → Nlmhe.Obs d → V × M) (mhe : V → M → List (Nlmhe.Obs d) → V)
    (w : ℕ) (data : List (Nlmhe.Obs d)) :
    ∀ st : Nlmhe.MheLoopState V M d,
      ∃ tl : List M, (data.foldl (Nlmhe.mheStep pred upd mhe w) st).covs =
        st.covs ++ tl ∧ tl.length = data.length := by
  induction data with
  | nil => intro st; exact ⟨[], by simp⟩
  | cons y ys ih =>
      intro st
      rw [List.foldl_cons]
      obtain ⟨tl, htl, hlen⟩ := ih (Nlmhe.mheStep pred upd mhe w st y)
      have hstep : ∃ x : M, (Nlmhe.mheStep pred upd mhe w st y).covs =
          st.covs ++ [x] := by
        unfold Nlmhe.mheStep
        dsimp only
        split
        · exact ⟨_, rfl⟩
        · exact ⟨_, rfl⟩
      obtain ⟨x, hx⟩ := hstep
      refine ⟨x :: tl, ?_, by simp [hlen]⟩
      rw [htl, hx, List.append_assoc]
      rfl

/-! ## Claim theorems -/

/-- C8: For every filter mean `m` and covariance `P`,
`NonlinearMhe.one_step_prediction(m, P)` returns exactly the pair
`(F @ m, F @ P @ F.T + Q)` for the transition matrix `F` and transition
covariance `Q` supplied at construction; and the result depends on no
other instance field (the embedding is pure, so neither the arguments nor
the instance can be mutated). -/
theorem nlmhe_one_step_prediction_eq {n d : ℕ} (model : Nlmhe.NonlinearMhe n d)
    (m : Matrix (Fin n) (Fin 1) ℝ) (P : Matrix (Fin n) (Fin n) ℝ) :
    model.one_step_prediction m P =
      (model.transition_matrix * m,
        model.transition_matrix * P * model.transition_matrix.transpose +
          model.transition_cov) ∧
    ∀ (oc : ℝ) (m0 : Matrix (Fin n) (Fin 1) ℝ) (P0 : Matrix (Fin n) (Fin n) ℝ)
      (sw : ℕ),
      (⟨model.transition_matrix, model.transition_cov, oc, m0, P0, sw⟩ :
        Nlmhe.NonlinearMhe n d).one_step_prediction m P =
        model.one_step_prediction m P :=
  ⟨rfl, fun _ _ _ _ => rfl⟩

/-- C3: Two simulator instances constructed with identical parameters
(including the seed, from which each instance derives its own generator
stream `gauss seed`) produce identical latent trajectories `X` and
identical observation sequences `Y` — for `TANSimulator`,
`ExplosiveTANSimulator`, and `ConstantVelocityModel` alike. -/
theorem simulators_deterministic_given_seed (gauss : ℕ → ℕ → ℝ)
    (p₁ p₂ : Data.TANParams) (q₁ q₂ : Data.CVParams)
    (hp : p₁ = p₂) (hq : q₁ = q₂) :
    ((Data.mkTANSimulator gauss p₁).X = (Data.mkTANSimulator gauss p₂).X ∧
      (Data.mkTANSimulator gauss p₁).Y = (Data.mkTANSimulator gauss p₂).Y) ∧
    ((Data.mkExplosiveTANSimulator gauss p₁).X =
        (Data.mkExplosiveTANSimulator gauss p₂).X ∧
      (Data.mkExplosiveTANSimulator gauss p₁).Y =
        (Data.mkExplosiveTANSimulator gauss p₂).Y) ∧
    Data.mkConstantVelocityModel gauss q₁ =
      Data.mkConstantVelocityModel gauss q₂ := by
  subst hp; subst hq
  exact ⟨⟨rfl, rfl⟩, ⟨rfl, rfl⟩, rfl⟩

/-- Witness for C3 at a concrete parameter set and the all-zero stream. -/
theorem simulators_deterministic_given_seed_witness :
    ((Data.mkTANSimulator (fun _ _ => 0) ⟨3, 1, 1, fun _ => 0, 0, fun _ => 0, 7⟩).X =
        (Data.mkTANSimulator (fun _ _ => 0) ⟨3, 1, 1, fun _ => 0, 0, fun _ => 0, 7⟩).X ∧
      (Data.mkTANSimulator (fun _ _ => 0) ⟨3, 1, 1, fun _ => 0, 0, fun _ => 0, 7⟩).Y =
        (Data.mkTANSimulator (fun _ _ => 0) ⟨3, 1, 1, fun _ => 0, 0, fun _ => 0, 7⟩).Y) ∧
    ((Data.mkExplosiveTANSimulator (fun _ _ => 0) ⟨3, 1, 1, fun _ => 0, 0, fun _ => 0, 7⟩).X =
        (Data.mkExplosiveTANSimulator (fun _ _ => 0) ⟨3, 1, 1, fun _ => 0, 0, fun _ => 0, 7⟩).X ∧
      (Data.mkExplosiveTANSimulator (fun _ _ => 0) ⟨3, 1, 1, fun _ => 0, 0, fun _ => 0, 7⟩).Y =
        (Data.mkExplosiveTANSimulator (fun _ _ => 0) ⟨3, 1, 1, fun _ => 0, 0, fun _ => 0, 7⟩).Y) ∧
    Data.mkConstantVelocityModel (fun _ _ => 0) ⟨2, 1, 1, 10, 0, 5⟩ =
      Data.mkConstantVelocityModel (fun _ _ => 0) ⟨2, 1, 1, 10, 0, 5⟩ :=
  simulators_deterministic_given_seed (fun _ _ => 0)
    ⟨3, 1, 1, fun _ => 0, 0, fun _ => 0, 7⟩ ⟨3, 1, 1, fun _ => 0, 0, fun _ => 0, 7⟩
    ⟨2, 1, 1, 10, 0, 5⟩ ⟨2, 1, 1, 10, 0, 5⟩ rfl rfl

/-- C10: After `NonlinearMhe.filter()` returns, `filter_means` and
`filter_covs` each contain exactly `data.shape[0]` entries — one mean and
one covariance per observation row — with the initial prior `(m_0, P_0)`
dropped from the front of each accumulated list. -/
theorem nlmhe_filter_counts {V M : Type} {d : ℕ} (pred : V × M → V × M)
    (upd : V × M → Nlmhe.Obs d → V × M) (mhe : V → M → List (Nlmhe.Obs d) → V)
    (w : ℕ) (m0 : V) (P0 : M) (data : List (Nlmhe.Obs d)) :
    (Nlmhe.mheFilter pred upd mhe w m0 P0 data).1.length = data.length ∧
    (Nlmhe.mheFilter pred upd mhe w m0 P0 data).2.length = data.length ∧
    (data.foldl (Nlmhe.mheStep pred upd mhe w) (Nlmhe.mheInit d w m0 P0)).means =
      m0 :: (Nlmhe.mheFilter pred upd mhe w m0 P0 data).1 ∧
    (data.foldl (Nlmhe.mheStep pred upd mhe w) (Nlmhe.mheInit d w m0 P0)).covs =
      P0 :: (Nlmhe.mheFilter pred upd mhe w m0 P0 data).2 := by
  obtain ⟨tlm, hm, hml⟩ := mheFold_means_append pred upd mhe w data (Nlmhe.mheInit d w m0 P0)
  obtain ⟨tlc, hc, hcl⟩ := mheFold_covs_append pred upd mhe w data (Nlmhe.mheInit d w m0 P0)
  have hminit : (Nlmhe.mheInit d w m0 P0 : Nlmhe.MheLoopState V M d).means = [m0] := rfl
  have hcinit : (Nlmhe.mheInit d w m0 P0 : Nlmhe.MheLoopState V M d).covs = [P0] := rfl
  rw [hminit] at hm
  rw [hcinit] at hc
  unfold Nlmhe.mheFilter
  dsimp only
  rw [hm, hc]
  simp [hml, hcl]

/-- C2: After a reweighting step of the sampler's `sample()` pass
(modelled from the spec: stabilize by the maximum log-weight,
exponentiate, normalize), the weight vector has the same length as the
per-particle log-weight vector (one weight per particle), every weight is
non-negative, the weights sum to 1 exactly (reals model the floating
tolerance), and at least one weight is strictly positive. -/
theorem sampler_weights_normalized (l : List ℝ) (hne : l ≠ []) :
    (Sampler.normalizeLogWeights l).length = l.length ∧
    (∀ w ∈ Sampler.normalizeLogWeights l, 0 ≤ w) ∧
    (Sampler.normalizeLogWeights l).sum = 1 ∧
    ∃ w ∈ Sampler.normalizeLogWeights l, 0 < w := by
  unfold Sampler.normalizeLogWeights
  dsimp only
  set m := l.foldl max (l.headD 0) with hm
  set raw := l.map fun a => Real.exp (a - m) with hraw
  have hrawne : raw ≠ [] := by
    rw [hraw]
    simpa using hne
  have hsum : 0 < raw.sum := by
    rw [hraw, show (fun a => Real.exp (a - m)) = (fun a => Real.exp a) ∘ (fun a => a - m) from rfl,
      ← List.map_map]
    exact exp_list_sum_pos _ (by simpa using hne)
  refine ⟨by simp [hraw], ?_, ?_, ?_⟩
  · intro w hw
    rcases List.mem_map.mp hw with ⟨x, hx, rfl⟩
    rcases List.mem_map.mp hx with ⟨a, _, rfl⟩
    exact div_nonneg (Real.exp_pos _).le hsum.le
  · rw [list_sum_map_div]
    exact div_self hsum.ne'
  · obtain ⟨x, hx⟩ := List.exists_mem_of_ne_nil raw hrawne
    refine ⟨x / raw.sum, List.mem_map_of_mem _ hx, ?_⟩
    rcases List.mem_map.mp hx with ⟨a, _, rfl⟩
    exact div_pos (Real.exp_pos _) hsum

/-- Witness for C2 at the concrete log-weight vector `[0, 1]`. -/
theorem sampler_weights_normalized_witness :
    (Sampler.normalizeLogWeights [0, 1]).length = 2 ∧
    (∀ w ∈ Sampler.normalizeLogWeights [0, 1], 0 ≤ w) ∧
    (Sampler.normalizeLogWeights [0, 1]).sum = 1 ∧
    ∃ w ∈ Sampler.normalizeLogWeights [0, 1], 0 < w :=
  sampler_weights_normalized [0, 1] (by simp)

/-- C1: For every fixed residual `r` and observation variance `s2`, the
robustified beta-divergence log-weight (modelled from the spec) converges
to the vanilla Gaussian log-density as β → 0 (through nonzero β), hence
the robustified weight converges to the vanilla Gaussian weight; and β = 0
recovers the vanilla quantity exactly. -/
theorem robust_weight_recovers_gaussian (r s2 : ℝ) :
    Sampler.robustLogWeight 0 r s2 = Sampler.gaussLogDensity r s2 ∧
    Tendsto (fun β => Sampler.robustLogWeight β r s2)
      (nhdsWithin (0 : ℝ) {(0 : ℝ)}ᶜ) (nhds (Sampler.gaussLogDensity r s2)) ∧
    Tendsto (fun β => Real.exp (Sampler.robustLogWeight β r s2))
      (nhdsWithin (0 : ℝ) {(0 : ℝ)}ᶜ) (nhds (Sampler.gaussWeight r s2)) := by
  set L := Sampler.gaussLogDensity r s2 with hL
  have hd : HasDerivAt (fun β : ℝ => Real.exp (β * L)) L 0 := by
    have h1 : HasDerivAt (fun β : ℝ => β * L) L 0 := by
      simpa using (hasDerivAt_id (0 : ℝ)).mul_const L
    simpa using h1.exp
  have hs := hasDerivAt_iff_tendsto_slope.mp hd
  have heq : slope (fun β : ℝ => Real.exp (β * L)) 0 =ᶠ[nhdsWithin (0 : ℝ) {(0 : ℝ)}ᶜ]
      fun β => Sampler.robustLogWeight β r s2 := by
    filter_upwards [self_mem_nhdsWithin] with β hβ
    have hβ0 : β ≠ 0 := Set.mem_compl_singleton_iff.mp hβ
    rw [slope_def_field, Sampler.robustLogWeight, if_neg hβ0]
    simp
  have h2 : Tendsto (fun β => Sampler.robustLogWeight β r s2)
      (nhdsWithin (0 : ℝ) {(0 : ℝ)}ᶜ) (nhds L) := hs.congr' heq
  refine ⟨if_pos rfl, h2, ?_⟩
  have h3 := (Real.continuous_exp.tendsto L).comp h2
  exact h3

/-- C6: In `NonlinearMhe.filter`, the UKF state evolution applies
`ukf.predict()` at every index and applies `ukf.update(y)` exactly when
the observation row contains no `NaN`: the UKF state inside the filter
loop coincides with the fold of `ukfStep`, and after processing index `t`
it equals the bare prediction when `data[t]` has a `NaN` component (the
measurement update is skipped, so no observation touches the estimate at
that index) and the updated prediction otherwise. -/
theorem nlmhe_filter_nan_skips_update {V M : Type} {d : ℕ}
    (pred : V × M → V × M) (upd : V × M → Nlmhe.Obs d → V × M)
    (mhe : V → M → List (Nlmhe.Obs d) → V) (w : ℕ) (m0 : V) (P0 : M)
    (data : List (Nlmhe.Obs d)) (t : ℕ) (ht : t < data.length) :
    (data.foldl (Nlmhe.mheStep pred upd mhe w) (Nlmhe.mheInit d w m0 P0)).ukf =
      data.foldl (Nlmhe.ukfStep pred upd) (m0, P0) ∧
    (data.take (t + 1)).foldl (Nlmhe.ukfStep pred upd) (m0, P0) =
      (if Nlmhe.hasNaN (data.get ⟨t, ht⟩) = true
       then pred ((data.take t).foldl (Nlmhe.ukfStep pred upd) (m0, P0))
       else upd (pred ((data.take t).foldl (Nlmhe.ukfStep pred upd) (m0, P0)))
         (data.get ⟨t, ht⟩)) := by
  constructor
  · exact mheFold_ukf pred upd mhe w _ data
  · rw [foldl_take_succ (Nlmhe.ukfStep pred upd) data t _ ht]
    unfold Nlmhe.ukfStep
    split
    · rfl
    · rfl

/-- Witness for C6: one observation row that is entirely `NaN` followed by
one valid row, with concrete abstract-UKF transition maps on `ℕ × ℕ`. -/
theorem nlmhe_filter_nan_skips_update_witness :
    (([fun _ => none, fun _ => some 0] :
        List (Nlmhe.Obs 1)).foldl
      (Nlmhe.mheStep (fun s => (s.1 + 1, s.2)) (fun s _ => (s.1 * 7, s.2))
        (fun v _ _ => v) 5) (Nlmhe.mheInit 1 5 (0 : ℕ) (0 : ℕ))).ukf =
      ([fun _ => none, fun _ => some 0] :
        List (Nlmhe.Obs 1)).foldl
        (Nlmhe.ukfStep (fun s => (s.1 + 1, s.2)) (fun s _ => (s.1 * 7, s.2)))
        ((0 : ℕ), (0 : ℕ)) ∧
    (([fun _ => none, fun _ => some 0] :
        List (Nlmhe.Obs 1)).take 1).foldl
        (Nlmhe.ukfStep (fun s => (s.1 + 1, s.2)) (fun s _ => (s.1 * 7, s.2)))
        ((0 : ℕ), (0 : ℕ)) =
      (if Nlmhe.hasNaN (([fun _ => none, fun _ => some 0] :
          List (Nlmhe.Obs 1)).get ⟨0, by decide⟩) = true
       then (fun s => (s.1 + 1, s.2))
         ((([fun _ => none, fun _ => some 0] :
             List (Nlmhe.Obs 1)).take 0).foldl
           (Nlmhe.ukfStep (fun s => (s.1 + 1, s.2)) (fun s _ => (s.1 * 7, s.2)))
           ((0 : ℕ), (0 : ℕ)))
       else (fun s _ => (s.1 * 7, s.2))
         ((fun s => (s.1 + 1, s.2))
           ((([fun _ => none, fun _ => some 0] :
               List (Nlmhe.Obs 1)).take 0).foldl
             (Nlmhe.ukfStep (fun s => (s.1 + 1, s.2)) (fun s _ => (s.1 * 7, s.2)))
             ((0 : ℕ), (0 : ℕ))))
         (([fun _ => none, fun _ => some 0] :
             List (Nlmhe.Obs 1)).get ⟨0, by decide⟩)) :=
  nlmhe_filter_nan_skips_update (fun s => (s.1 + 1, s.2)) (fun s _ => (s.1 * 7, s.2))
    (fun v _ _ => v) 5 0 0 [fun _ => none, fun _ => some 0] 0 (by decide)

/-- C7: A non-positive-definite observation covariance makes
`ConstantVelocityModel` fail at construction: `__init__` runs
`_simulate_system`, whose `cholesky(self.observation_cov)` raises
(`none`) whenever a Cholesky pivot is non-positive, so no instance — and
hence no `renoise` call on one — can ever exist for such a
configuration.  (If the built process covariance also fails its
factorization, construction fails just the same.) -/
theorem cv_constructor_fails_on_bad_cov (gauss : ℕ → ℕ → ℝ)
    (q : Data.CVParams) (h : ¬ Data.chol2Pd q.observationCov) :
    Data.mkConstantVelocityModel gauss q = none := by
  have hnone : Data.chol2 q.observationCov = none := chol2_none_of_not_pd _ h
  unfold Data.mkConstantVelocityModel
  cases h4 : Data.chol4 (Data.cvProcessCov q.timeStep) with
  | none => simp [h4]
  | some L => simp [h4, hnone]

/-- Witness for C7: the singular (hence not positive-definite) observation
covariance `[[0, 0], [0, 1]]` is rejected at construction. -/
theorem cv_constructor_fails_on_bad_cov_witness :
    Data.mkConstantVelocityModel (fun _ _ => 0)
      ⟨1, 1, Matrix.of ![![0, 0], ![0, 1]], 10, 0, 0⟩ = none :=
  cv_constructor_fails_on_bad_cov (fun _ _ => 0)
    ⟨1, 1, Matrix.of ![![0, 0], ![0, 1]], 10, 0, 0⟩
    (fun hc => absurd hc.1 (lt_irrefl 0))

/-- C4: Re-noising returns a new observation sequence of the same shape as
the original `Y` while only reading the stored latent trajectory `X` (the
embedding returns the fresh observations and the advanced generator; the
model's fields, `X` included, are not part of the output).  For the TAN
family (`renoise` modelled from the spec, see `tanRenoise`) the fresh
sequence has one row per row of `X`, which matches `Y`'s row count; for
`ConstantVelocityModel`, `renoise` succeeds whenever
`cholesky(observation_cov)` does, producing one observation per row of
`X`, and every constructed model satisfies `length Y = length X`. -/
theorem simulators_renoise_shape (gauss : ℕ → ℕ → ℝ) (p : Data.TANParams)
    (stream : ℕ → ℝ) (m : Data.CVModel) (r : RngState)
    (R : Matrix (Fin 2) (Fin 2) ℝ)
    (hchol : Data.chol2 m.observationCov = some R) :
    ((Data.tanRenoise stream (Data.mkTANSimulator gauss p)).length =
        (Data.mkTANSimulator gauss p).Y.length ∧
      (Data.tanRenoise stream (Data.mkTANSimulator gauss p)).length =
        (Data.mkTANSimulator gauss p).X.length) ∧
    (∃ Ynew : List (Fin 2 → ℝ), ∃ rFin : RngState,
      m.renoise r = some (Ynew, rFin) ∧ Ynew.length = m.X.length) ∧
    (∀ q : Data.CVParams,
      (Data.mkConstantVelocityModel gauss q).elim True
        (fun mm => mm.Y.length = mm.X.length)) := by
  refine ⟨⟨?_, ?_⟩, ?_, ?_⟩
  · simp [Data.tanRenoise, Data.mkTANSimulator]
  · simp [Data.tanRenoise, Data.mkTANSimulator]
  · refine ⟨(Data.cvRenoiseLoop m.observationMatrix R m.explosionScale
        m.contaminationProbability m.X r).1,
      (Data.cvRenoiseLoop m.observationMatrix R m.explosionScale
        m.contaminationProbability m.X r).2, ?_, ?_⟩
    · unfold Data.CVModel.renoise
      rw [hchol]
    · exact cvRenoiseLoop_length _ _ _ _ m.X r
  · intro q
    unfold Data.mkConstantVelocityModel
    cases h4 : Data.chol4 (Data.cvProcessCov q.timeStep) with
    | none => simp [h4]
    | some L =>
        cases h2 : Data.chol2 q.observationCov with
        | none => simp [h4, h2]
        | some R2 =>
            cases h1 : Data.chol4 1 with
            | none => simp [h4, h2, h1]
            | some L0 =>
                simp only [h4, h2, h1, Option.elim]
                simp [List.length_cons,
                  (cvLoop_lengths _ _ _ _ _ _ (q.simulationSteps - 1) _ _).1,
                  (cvLoop_lengths _ _ _ _ _ _ (q.simulationSteps - 1) _ _).2]
/-- Witness for C4 at a concrete one-row model with identity observation
covariance (whose Cholesky factor is the identity). -/
theorem simulators_renoise_shape_witness :
    ((Data.tanRenoise (fun _ => 0)
        (Data.mkTANSimulator (fun _ _ => 0) ⟨2, 1, 1, fun _ => 0, 0, fun _ => 0, 3⟩)).length =
        (Data.mkTANSimulator (fun _ _ => 0) ⟨2, 1, 1, fun _ => 0, 0, fun _ => 0, 3⟩).Y.length ∧
      (Data.tanRenoise (fun _ => 0)
        (Data.mkTANSimulator (fun _ _ => 0) ⟨2, 1, 1, fun _ => 0, 0, fun _ => 0, 3⟩)).length =
        (Data.mkTANSimulator (fun _ _ => 0) ⟨2, 1, 1, fun _ => 0, 0, fun _ => 0, 3⟩).X.length) ∧
    (∃ Ynew : List (Fin 2 → ℝ), ∃ rFin : RngState,
      (Data.CVModel.renoise
        ⟨0, 0, 0, Matrix.of ![![1, 0], ![0, 1]], 0, 0, [fun _ => 0], [fun _ => 0],
          ⟨fun _ => 0, 0⟩⟩ ⟨fun _ => 0, 0⟩) = some (Ynew, rFin) ∧
        Ynew.length =
          (Data.CVModel.mk 0 0 0 (Matrix.of ![![1, 0], ![0, 1]]) 0 0
            [fun _ => 0] [fun _ => 0] ⟨fun _ => 0, 0⟩).X.length) ∧
    (∀ q : Data.CVParams,
      (Data.mkConstantVelocityModel (fun _ _ => 0) q).elim True
        (fun mm => mm.Y.length = mm.X.length)) :=
  simulators_renoise_shape (fun _ _ => 0) ⟨2, 1, 1, fun _ => 0, 0, fun _ => 0, 3⟩
    (fun _ => 0)
    ⟨0, 0, 0, Matrix.of ![![1, 0], ![0, 1]], 0, 0, [fun _ => 0], [fun _ => 0],
      ⟨fun _ => 0, 0⟩⟩
    ⟨fun _ => 0, 0⟩ (Matrix.of ![![1, 0], ![0, 1]])
    (by norm_num [Data.chol2, Matrix.of_apply, Matrix.cons_val_zero,
      Matrix.cons_val_one, Matrix.head_cons, Real.sqrt_one])

/-- C5 counterexample: in `ConstantVelocityModel`, a contaminated step
does NOT replace the nominal noise.  Concrete input: zero observation
matrix and latent state, identity `R`, explosion scale 10, contamination
probability 1, and a stream whose first two draws (the nominal Gaussian
noise) are 1 while the uniform and the explosion draws are 0.  The step is
contaminated (`u = 0 < 1`), and if the heavy-tailed draw replaced the
nominal noise the observation would be
`observation_matrix @ x + explosion_scale * e = 0`; the code instead
keeps the nominal noise, producing a nonzero observation. -/
theorem cv_contamination_not_replacement :
    (Data.cvObservationStep 0 1 10 1 0 ⟨fun n => if n < 2 then 1 else 0, 0⟩).1 ≠
      (0 : Matrix (Fin 2) (Fin 4) ℝ).mulVec 0 +
        (10 : ℝ) • (drawN 2 (draw1 (drawN 2
          ⟨fun n => if n < 2 then 1 else 0, 0⟩).2).2).1 := by
  intro h
  have h0 := congrFun h 0
  simp only [Data.cvObservationStep, drawN, draw1, Matrix.one_mulVec,
    Matrix.zero_mulVec, Pi.add_apply, Pi.smul_apply, Pi.zero_apply,
    smul_eq_mul] at h0
  norm_num at h0

/-- C5 (amended): when a time step is contaminated, the observation noise
handling differs between the two simulators.  In `ExplosiveTANSimulator`
the heavy-tailed Student-t draw replaces the nominal Gaussian draw
(`noise[t_loc] = standard_t(...)`, the Gaussian draw `g` is unused on
those rows); in `ConstantVelocityModel` the explosion term is added on
top of the nominal Gaussian noise
(`Y_new = H @ x + R @ g; Y_new += explosion_scale * e`), supplementing
rather than replacing it. -/
theorem contamination_noise_semantics {k : ℕ} (std u : ℝ)
    (g tdraw : Fin k → ℝ) (H : Matrix (Fin 2) (Fin 4) ℝ)
    (R : Matrix (Fin 2) (Fin 2) ℝ) (scale pc : ℝ) (x : Fin 4 → ℝ)
    (r : RngState) (hu : u ≤ 0.05) (hc : (draw1 (drawN 2 r).2).1 < pc) :
    Data.explosiveNoiseRow k std u g tdraw = (fun j => std * tdraw j) ∧
    (Data.cvObservationStep H R scale pc x r).1 =
      (H.mulVec x + R.mulVec (drawN 2 r).1) +
        scale • (drawN 2 (draw1 (drawN 2 r).2).2).1 := by
  constructor
  · funext j
    unfold Data.explosiveNoiseRow
    rw [if_pos hu]
  · unfold Data.cvObservationStep
    dsimp only
    rw [if_pos hc]

/-- Witness for C5's amended theorem at concrete contaminated inputs. -/
theorem contamination_noise_semantics_witness :
    Data.explosiveNoiseRow 1 2 0 (fun _ => 3) (fun _ => 7) =
      (fun j => 2 * (fun _ : Fin 1 => (7 : ℝ)) j) ∧
    (Data.cvObservationStep 0 1 10 1 0 ⟨fun _ => 0, 0⟩).1 =
      ((0 : Matrix (Fin 2) (Fin 4) ℝ).mulVec 0 +
          (1 : Matrix (Fin 2) (Fin 2) ℝ).mulVec (drawN 2 ⟨fun _ => 0, 0⟩).1) +
        (10 : ℝ) • (drawN 2 (draw1 (drawN 2 ⟨fun _ => 0, 0⟩).2).2).1 :=
  contamination_noise_semantics 2 0 (fun _ => 3) (fun _ => 7) 0 1 10 1 0
    ⟨fun _ => 0, 0⟩ (by norm_num) (by norm_num [draw1, drawN])

/-- C9 (amended): the two DEM implementations agree on the diagonal
`x = y` when the nonlinearmhe version is called with `num_frequencies=6`
(there the differing cosine arguments coincide), and within the
nonlinearmhe version the scalar (`np.sum`) branch and the array (loop)
branch agree for all inputs and truncation lengths; off the diagonal the
two files differ in general, because `data.py` evaluates the cosine at
the `x` coordinate and `nonlinearmhe.py` at the `y` coordinate. -/
theorem dem_agreement (x y : ℝ) (nf : ℕ) :
    Data.dem x x = Nlmhe.dem x x 6 ∧ Nlmhe.dem x y nf = Nlmhe.demLoop x y nf := by
  constructor
  · rfl
  · induction nf with
    | zero => simp [Nlmhe.dem, Nlmhe.demLoop]
    | succ n ih =>
        rw [Nlmhe.demLoop, ← ih]
        unfold Nlmhe.dem
        rw [Finset.sum_range_succ, add_assoc]

/-- C9 counterexample: at `x = (2.96·10⁴/3)·(π/2)` and
`y = (2.96·10⁴/3)·(π/4)` (so that `q·x = π/2`, `q·y = π/4`) the two DEM
implementations differ: every Fourier term with index ≥ 1 vanishes
because `sin(ωᵢ·π/2) = 0`, and the surviving first term is
`300·sin(5π/2)·cos(4·π/2) = 300` in `data.py` but
`300·sin(5π/2)·cos(4·π/4) = -300` in `nonlinearmhe.py`. -/
theorem dem_implementations_differ :
    Data.dem (2.96 * 10 ^ 4 / 3 * (Real.pi / 2)) (2.96 * 10 ^ 4 / 3 * (Real.pi / 4)) ≠
      Nlmhe.dem (2.96 * 10 ^ 4 / 3 * (Real.pi / 2)) (2.96 * 10 ^ 4 / 3 * (Real.pi / 4)) 6 := by
  have hqx : Data.qConst * (2.96 * 10 ^ 4 / 3 * (Real.pi / 2)) = Real.pi / 2 := by
    unfold Data.qConst
    field_simp
    ring
  have hqy : Data.qConst * (2.96 * 10 ^ 4 / 3 * (Real.pi / 4)) = Real.pi / 4 := by
    unfold Data.qConst
    field_simp
    ring
  have a0 : Data.aCoef 0 = 300 := rfl
  have a1 : Data.aCoef 1 = 80 := rfl
  have a2 : Data.aCoef 2 = 60 := rfl
  have a3 : Data.aCoef 3 = 40 := rfl
  have a4 : Data.aCoef 4 = 20 := rfl
  have a5 : Data.aCoef 5 = 10 := rfl
  have w0 : Data.omegaCoef 0 = 5 := rfl
  have w1 : Data.omegaCoef 1 = 10 := rfl
  have w2 : Data.omegaCoef 2 = 20 := rfl
  have w3 : Data.omegaCoef 3 = 30 := rfl
  have w4 : Data.omegaCoef 4 = 80 := rfl
  have w5 : Data.omegaCoef 5 = 150 := rfl
  have b0 : Data.omegaBarCoef 0 = 4 := rfl
  have b1 : Data.omegaBarCoef 1 = 10 := rfl
  have b2 : Data.omegaBarCoef 2 = 20 := rfl
  have b3 : Data.omegaBarCoef 3 = 40 := rfl
  have b4 : Data.omegaBarCoef 4 = 90 := rfl
  have b5 : Data.omegaBarCoef 5 = 150 := rfl
  have s5 : Real.sin (5 * (Real.pi / 2)) = 1 := by
    rw [show (5 : ℝ) * (Real.pi / 2) = Real.pi / 2 + 2 * Real.pi by ring,
      Real.sin_add_two_pi, Real.sin_pi_div_two]
  have s10 : Real.sin (10 * (Real.pi / 2)) = 0 := by
    rw [show (10 : ℝ) * (Real.pi / 2) = (5 : ℕ) * Real.pi by push_cast; ring]
    exact Real.sin_nat_mul_pi 5
  have s20 : Real.sin (20 * (Real.pi / 2)) = 0 := by
    rw [show (20 : ℝ) * (Real.pi / 2) = (10 : ℕ) * Real.pi by push_cast; ring]
    exact Real.sin_nat_mul_pi 10
  have s30 : Real.sin (30 * (Real.pi / 2)) = 0 := by
    rw [show (30 : ℝ) * (Real.pi / 2) = (15 : ℕ) * Real.pi by push_cast; ring]
    exact Real.sin_nat_mul_pi 15
  have s80 : Real.sin (80 * (Real.pi / 2)) = 0 := by
    rw [show (80 : ℝ) * (Real.pi / 2) = (40 : ℕ) * Real.pi by push_cast; ring]
    exact Real.sin_nat_mul_pi 40
  have s150 : Real.sin (150 * (Real.pi / 2)) = 0 := by
    rw [show (150 : ℝ) * (Real.pi / 2) = (75 : ℕ) * Real.pi by push_cast; ring]
    exact Real.sin_nat_mul_pi 75
  have c4 : Real.cos (4 * (Real.pi / 2)) = 1 := by
    rw [show (4 : ℝ) * (Real.pi / 2) = 2 * Real.pi by ring]
    exact Real.cos_two_pi
  have c4' : Real.cos (4 * (Real.pi / 4)) = -1 := by
    rw [show (4 : ℝ) * (Real.pi / 4) = Real.pi by ring]
    exact Real.cos_pi
  have e1 : Data.dem (2.96 * 10 ^ 4 / 3 * (Real.pi / 2))
      (2.96 * 10 ^ 4 / 3 * (Real.pi / 4)) =
      Data.peaks (Real.pi / 2) (Real.pi / 4) + 300 := by
    unfold Data.dem
    rw [hqx, hqy]
    rw [Finset.sum_range_succ, Finset.sum_range_succ, Finset.sum_range_succ,
      Finset.sum_range_succ, Finset.sum_range_succ, Finset.sum_range_succ,
      Finset.sum_range_zero]
    rw [a0, a1, a2, a3, a4, a5, w0, w1, w2, w3, w4, w5, b0, b1, b2, b3, b4, b5]
    rw [s5, s10, s20, s30, s80, s150, c4]
    ring
  have e2 : Nlmhe.dem (2.96 * 10 ^ 4 / 3 * (Real.pi / 2))
      (2.96 * 10 ^ 4 / 3 * (Real.pi / 4)) 6 =
      Data.peaks (Real.pi / 2) (Real.pi / 4) - 300 := by
    unfold Nlmhe.dem
    rw [hqx, hqy]
    rw [Finset.sum_range_succ, Finset.sum_range_succ, Finset.sum_range_succ,
      Finset.sum_range_succ, Finset.sum_range_succ, Finset.sum_range_succ,
      Finset.sum_range_zero]
    rw [a0, a1, a2, a3, a4, a5, w0, w1, w2, w3, w4, w5, b0, b1, b2, b3, b4, b5]
    rw [s5, s10, s20, s30, s80, s150, c4']
    ring
  intro h
  rw [e1, e2] at h
  linarith
